import Mathlib

/-!
Verification development for the logrus formatting layer (text formatter and
JSON formatter).  The Go source of `text_formatter.go` and the JSON formatter
file are embedded shallowly: Go maps become association lists, `bytes.Buffer`
output becomes `String`, and the external collaborators that are not part of
the given source (the `Entry` type, `Level.String`, `prefixFieldClashes`,
`DefaultTimestampFormat`, the standard library time and JSON packages) are
modelled from the specification, as marked on each definition.
-/

namespace Logrus

/-- Modelled from the spec: an attribute value is "text, error, or other
printable value".  `other` carries the value's default printable
representation (what Go's `fmt.Fprint` would produce) and whether the machine
encoding can represent it (`json.Marshal` rejects some value types). -/
inductive FValue where
  | str (s : String)
  | err (msg : String)
  | other (printed : String) (marshalable : Bool)
  deriving DecidableEq, Repr

/-- Modelled from the spec: `type Fields map[string]interface\x7b\x7d` — the
attribute mapping of an event, embedded as an association list.  Go map
iteration order is arbitrary; the list order stands for one such order. -/
abbrev Fields := List (String × FValue)

/-- First-match lookup in an association list, the embedding of Go map read. -/
def lookupKey {α : Type} : List (String × α) → String → Option α
  | [], _ => none
  | (k', v) :: d, k => if k' = k then some v else lookupKey d k

/-- The keys of an association list, in list order. -/
def Fields.keys (d : Fields) : List String := d.map Prod.fst

/-- Go map write `d[k] = v`: replace the binding if the key is present,
otherwise add a new binding. -/
def Fields.insert (d : Fields) (k : String) (v : FValue) : Fields :=
  if d.any (fun p => p.1 = k) then d.map (fun p => if p.1 = k then (k, v) else p)
  else d ++ [(k, v)]

/-- Go map delete `delete(d, k)`: remove the binding for `k`. -/
def Fields.erase (d : Fields) (k : String) : Fields :=
  d.filter (fun p => p.1 ≠ k)

/-- A Go map never holds two bindings for one key; the embedding carries this
as a predicate on the association list. -/
def Fields.NodupKeys (d : Fields) : Prop := (Fields.keys d).Nodup

instance (d : Fields) : Decidable (Fields.NodupKeys d) := by
  unfold Fields.NodupKeys; infer_instance

/-- Modelled from the spec: the ordered severity levels
debug < info < warning < error < fatal < panic (`Level` lives outside the
given source files). -/
inductive Level where
  | debug | info | warning | error | fatal | panic
  deriving DecidableEq, Repr

/-- Modelled from the spec: the level's text representation, as produced by
`Level.String()` (outside the given source); the spec's examples show
`level=info` and `"level":"error"`, and §3 names the six levels. -/
def Level.str : Level → String
  | .debug => "debug"
  | .info => "info"
  | .warning => "warning"
  | .error => "error"
  | .fatal => "fatal"
  | .panic => "panic"

/-- Modelled from the spec: a point-in-time timestamp (`time.Time`).  `nanos`
is the instant in nanoseconds since the Unix epoch; `format` renders the
instant according to a layout string.  The rendering behaviour of the external
time library is left abstract as a field of the value. -/
structure GoTime where
  nanos : Int
  format : String → String

/-- Modelled from the spec: a Log Event — timestamp, severity level, message,
attributes, plus the optional caller-supplied reusable output buffer that the
`Entry` type (outside the given source) carries. -/
structure Entry where
  Time : GoTime
  Level : Level
  Message : String
  Data : Fields
  Buffer : Option String

/-- Modelled from the spec: the default timestamp layout (RFC3339), defined
outside the given source files. -/
def DefaultTimestampFormat : String := "2006-01-02T15:04:05Z07:00"

/-- The three reserved field names of §4.1. -/
def reservedKeys : List String := ["time", "msg", "level"]

/-- One renaming step of Field-Clash Resolution: if the reserved name `r` is
an attribute key, move its value to the key `"fields." ++ r` (a later write to
an already-present `"fields." ++ r` wins, as §4.1 documents). -/
def moveKey (d : Fields) (r : String) : Fields :=
  match lookupKey d r with
  | some v => Fields.insert (Fields.erase d r) ("fields." ++ r) v
  | none => d

/-- Modelled from the spec: `prefixFieldClashes` (§4.1, outside the given
source) renames every attribute whose key equals a reserved field name by
prefixing it with `"fields."`, keeping its value. -/
def prefixFieldClashes (d : Fields) : Fields :=
  moveKey (moveKey (moveKey d "time") "msg") "level"

/-- Concatenate a list of strings, the embedding of sequential buffer writes. -/
def joinStr : List String → String
  | [] => ""
  | s :: l => s ++ joinStr l

-- Color codes from text_formatter.go.
def nocolor : Nat := 0
def red : Nat := 31
def green : Nat := 32
def yellow : Nat := 33
def blue : Nat := 34
def gray : Nat := 37

/-- The terminal escape sequence `"\x1b[%dm"` used by the colored path. -/
def colorEsc (n : Nat) : String := "\x1b[" ++ toString n ++ "m"

/-- Go `fmt` `%-44s`: left-justify, pad with spaces to a minimum width. -/
def padRight (w : Nat) (s : String) : String :=
  s ++ String.mk (List.replicate (w - s.data.length) ' ')

/-- Go `fmt` `%04d`: zero-pad to width 4, the zeros following the sign. -/
def pad4 (n : Int) : String :=
  if n < 0 then
    let digits := toString (-n)
    "-" ++ String.mk (List.replicate (3 - digits.data.length) '0') ++ digits
  else
    let digits := toString n
    String.mk (List.replicate (4 - digits.data.length) '0') ++ digits

/-- The first four characters of a string, Go's `s[0:4]` on ASCII text. -/
def strTake4 (s : String) : String := String.mk (s.data.take 4)

/-- Go `strings.ToUpper` on ASCII text: uppercase every character. -/
def strToUpper (s : String) : String := String.mk (s.data.map Char.toUpper)

/-- The user-facing options struct `TextFormatter` of text_formatter.go. -/
structure TextFormatter where
  ForceColors : Bool
  DisableColors : Bool
  DisableTimestamp : Bool
  FullTimestamp : Bool
  TimestampFormat : String
  DisableSorting : Bool
  QuoteEmptyFields : Bool
  QuoteCharacter : String

/-- The internal representation `textFormatter` of text_formatter.go. -/
structure textFormatter where
  settings : TextFormatter
  isColored : Bool

/-- `(*TextFormatter).Build` of text_formatter.go.  The terminal probe
`IsTerminal(out)` and `runtime.GOOS` are external inputs, passed as the
`isTerminalOut` and `goos` arguments; the Go error result is always nil and is
omitted. -/
def TextFormatter.Build (factory : TextFormatter) (isTerminalOut : Bool)
    (goos : String) : textFormatter :=
  let factory :=
    if !factory.DisableTimestamp && factory.TimestampFormat == "" then
      { factory with TimestampFormat := DefaultTimestampFormat }
    else factory
  let factory :=
    if factory.QuoteCharacter == "" then
      { factory with QuoteCharacter := "\"" }
    else factory
  let isColorTerminal := isTerminalOut && !(goos == "windows")
  { settings := factory
    isColored := (factory.ForceColors || isColorTerminal) && !factory.DisableColors }

/-- The per-character condition tested in the loop of
`(*textFormatter).needsQuoting`: the character is in
\x7ba-z, A-Z, 0-9, -, .\x7d. -/
def allowedChar (ch : Char) : Bool :=
  (decide ('a' ≤ ch) && decide (ch ≤ 'z')) ||
  (decide ('A' ≤ ch) && decide (ch ≤ 'Z')) ||
  (decide ('0' ≤ ch) && decide (ch ≤ '9')) ||
  ch == '-' || ch == '.'

/-- `(*textFormatter).needsQuoting` of text_formatter.go: true when the text
is empty and quote-empty-fields is set, or when some character falls outside
the allowed set. -/
def textFormatter.needsQuoting (f : textFormatter) (text : String) : Bool :=
  if f.settings.QuoteEmptyFields && text.length == 0 then true
  else text.data.any fun ch => !allowedChar ch

/-- `(*textFormatter).appendValue` of text_formatter.go: strings and error
descriptions are quoted when needed, any other value is written via its
default printable representation. -/
def textFormatter.appendValue (f : textFormatter) (v : FValue) : String :=
  match v with
  | .str s =>
      if !f.needsQuoting s then s
      else f.settings.QuoteCharacter ++ s ++ f.settings.QuoteCharacter
  | .err m =>
      if !f.needsQuoting m then m
      else f.settings.QuoteCharacter ++ m ++ f.settings.QuoteCharacter
  | .other printed _ => printed

/-- `(*textFormatter).appendKeyValue` of text_formatter.go. -/
def textFormatter.appendKeyValue (f : textFormatter) (key : String) (v : FValue) : String :=
  key ++ "=" ++ f.appendValue v ++ " "

/-- The attribute map after Field-Clash Resolution, as mutated in place at the
start of `Format`. -/
def formatData (entry : Entry) : Fields := prefixFieldClashes entry.Data

/-- The key sequence collected in `Format`: the mutated map's keys, sorted
with `sort.Strings` (lexicographic, byte-wise ascending) unless sorting is
disabled. -/
def textFormatter.formatKeys (f : textFormatter) (entry : Entry) : List String :=
  if !f.settings.DisableSorting then
    List.insertionSort (· ≤ ·) (Fields.keys (formatData entry))
  else Fields.keys (formatData entry)

/-- The value printed for a missing key; unreachable, since the keys iterated
are exactly the map's keys (a Go map read of an absent key yields nil). -/
def nilValue : FValue := FValue.other "<nil>" false

/-- The key=value pairs written by the non-colored branch of
`(*textFormatter).Format`: time (unless disabled), level, msg (unless the
message is empty), then the collected keys in order. -/
def textFormatter.nonColoredPairs (f : textFormatter) (entry : Entry) : List (String × FValue) :=
  (if !f.settings.DisableTimestamp then
      [("time", FValue.str (entry.Time.format f.settings.TimestampFormat))]
    else []) ++
  ("level", FValue.str entry.Level.str) ::
  (if entry.Message != "" then [("msg", FValue.str entry.Message)] else []) ++
  (f.formatKeys entry).map fun k => (k, (lookupKey (formatData entry) k).getD nilValue)

/-- The color selected by severity in `(*textFormatter).printColored`. -/
def levelColorOf : Level → Nat
  | .debug => gray
  | .warning => yellow
  | .error | .fatal | .panic => red
  | _ => blue

/-- The trailing ` key=value` section of the colored line. -/
def textFormatter.coloredFields (f : textFormatter) (levelColor : Nat)
    (keys : List String) (data : Fields) : String :=
  joinStr (keys.map fun k =>
    " " ++ colorEsc levelColor ++ k ++ colorEsc 0 ++ "=" ++
      f.appendValue ((lookupKey data k).getD nilValue))

/-- `(*textFormatter).printColored` of text_formatter.go.  `baseTimestamp` is
the package-level variable set at package initialization (`init`). -/
def textFormatter.printColored (f : textFormatter) (baseTimestamp : GoTime)
    (entry : Entry) (keys : List String) (data : Fields) : String :=
  let levelColor := levelColorOf entry.Level
  let levelText := strTake4 (strToUpper entry.Level.str)
  let head :=
    if f.settings.DisableTimestamp then
      colorEsc levelColor ++ levelText ++ colorEsc 0 ++ " " ++
        padRight 44 entry.Message ++ " "
    else if !f.settings.FullTimestamp then
      colorEsc levelColor ++ levelText ++ colorEsc 0 ++ "[" ++
        pad4 ((entry.Time.nanos - baseTimestamp.nanos).tdiv 1000000000) ++ "] " ++
        padRight 44 entry.Message ++ " "
    else
      colorEsc levelColor ++ levelText ++ colorEsc 0 ++ "[" ++
        entry.Time.format f.settings.TimestampFormat ++ "] " ++
        padRight 44 entry.Message ++ " "
  head ++ f.coloredFields levelColor keys data

/-- `(*textFormatter).Format` of text_formatter.go.  The returned bytes are
the caller-supplied buffer contents (empty when none is supplied) followed by
the formatted line and a trailing newline; the Go error result is always nil
and is omitted. -/
def textFormatter.Format (f : textFormatter) (baseTimestamp : GoTime)
    (entry : Entry) : String :=
  let b := entry.Buffer.getD ""
  let body :=
    if f.isColored then
      f.printColored baseTimestamp entry (f.formatKeys entry) (formatData entry)
    else
      joinStr ((f.nonColoredPairs entry).map fun p => f.appendKeyValue p.1 p.2)
  b ++ body ++ "\n"

/-! ## The JSON (Machine) formatter -/

-- Reserved-field key constants of the JSON formatter source.
def FieldKeyMsg : String := "msg"
def FieldKeyLevel : String := "level"
def FieldKeyTime : String := "time"

/-- `type FieldMap map[fieldKey]string` — the user's reserved-field-name
remapping table, embedded as an association list. -/
abbrev FieldMap := List (String × String)

/-- `(FieldMap).resolve` of the JSON formatter source: the mapped name when
the key is present in the table, the key itself otherwise. -/
def FieldMap.resolve (f : FieldMap) (key : String) : String :=
  match lookupKey f key with
  | some k => k
  | none => key

/-- The user-facing options struct `JSONFormatter`. -/
structure JSONFormatter where
  TimestampFormat : String
  DisableTimestamp : Bool
  FieldMap : FieldMap

/-- The internal representation `jsonFormatter`. -/
structure jsonFormatter where
  timestampFormat : String
  keyTime : String
  keyLevel : String
  keyMsg : String

/-- `(*JSONFormatter).Build` of the JSON formatter source: resolve the three
reserved keys; blank out the time key when timestamps are disabled, otherwise
default the timestamp layout.  The output sink is not inspected and the Go
error result is always nil; both are omitted. -/
def JSONFormatter.Build (factory : JSONFormatter) : jsonFormatter :=
  let f : jsonFormatter :=
    { timestampFormat := factory.TimestampFormat
      keyTime := factory.FieldMap.resolve FieldKeyTime
      keyLevel := factory.FieldMap.resolve FieldKeyLevel
      keyMsg := factory.FieldMap.resolve FieldKeyMsg }
  if factory.DisableTimestamp then { f with keyTime := "" }
  else if f.timestampFormat == "" then { f with timestampFormat := DefaultTimestampFormat }
  else f

/-- The error-to-text conversion applied while copying the event's attributes
in `(*jsonFormatter).Format` ("errors are ignored by encoding/json"). -/
def textualize : FValue → FValue
  | .err m => .str m
  | v => v

/-- The copy loop at the top of `(*jsonFormatter).Format`: a fresh mapping
holding the event's attributes with error values textualized. -/
def errConvert (d : Fields) : Fields := d.map fun p => (p.1, textualize p.2)

/-- The output mapping assembled by `(*jsonFormatter).Format` before
serialization: copied attributes, clash resolution, then the time (when the
resolved time key is nonempty), msg and level fields. -/
def jsonFormatter.assemble (f : jsonFormatter) (entry : Entry) : Fields :=
  Fields.insert
    (Fields.insert
      (if f.keyTime ≠ "" then
        Fields.insert (prefixFieldClashes (errConvert entry.Data)) f.keyTime
          (.str (entry.Time.format f.timestampFormat))
      else prefixFieldClashes (errConvert entry.Data))
      f.keyMsg (.str entry.Message))
    f.keyLevel (.str entry.Level.str)

/-- Modelled from the spec: serialization of one value by the external
`encoding/json` package.  Strings encode as JSON strings (escaping elided —
no claim depends on the escape syntax); error values encode as an empty
object, which is why `Format` textualizes them first; other values encode as
their representation when the encoding supports them and are rejected
otherwise. -/
def FValue.marshalValue : FValue → Except String String
  | .str s => .ok ("\"" ++ s ++ "\"")
  | .err _ => .ok "\x7b\x7d"
  | .other printed true => .ok printed
  | .other printed false => .error ("json: unsupported type: " ++ printed)

/-- Serialize the bindings in order, stopping at the first failing value. -/
def marshalPairs : Fields → Except String (List (String × String))
  | [] => .ok []
  | (k, v) :: d => do
    let ev ← FValue.marshalValue v
    let rest ← marshalPairs d
    .ok ((k, ev) :: rest)

/-- Byte-wise lexicographic comparison (on UTF-8 text, byte order and
code-point order coincide), used to model the external encoder's key
sorting. -/
def charsLe : List Char → List Char → Bool
  | [], _ => true
  | _ :: _, [] => false
  | a :: as, b :: bs =>
      if a.val < b.val then true
      else if b.val < a.val then false
      else charsLe as bs

/-- Byte-wise lexicographic order on strings. -/
def strLeB (a b : String) : Bool := charsLe a.data b.data

/-- Modelled from the spec: `json.Marshal` of the assembled mapping — the
external encoder emits the object with its keys sorted, failing exactly when
some value is not representable. -/
def jsonMarshal (d : Fields) : Except String String :=
  match marshalPairs (List.insertionSort (fun p q : String × FValue => strLeB p.1 q.1 = true) d) with
  | .error e => .error e
  | .ok ps =>
      .ok ("\x7b" ++
        String.intercalate "," (ps.map fun p => "\"" ++ p.1 ++ "\":" ++ p.2) ++
        "\x7d")

/-- `(*jsonFormatter).Format` of the JSON formatter source: marshal the
assembled mapping; on failure return the wrapping error and no bytes, on
success the serialized object followed by a newline. -/
def jsonFormatter.Format (f : jsonFormatter) (entry : Entry) : Except String String :=
  match jsonMarshal (f.assemble entry) with
  | .error e => .error ("Failed to marshal fields to JSON, " ++ e)
  | .ok serialized => .ok (serialized ++ "\n")

/-- The key under which a user attribute ends up after Field-Clash
Resolution: reserved names gain the `"fields."` prefix, all others are kept. -/
def finalKey (k : String) : String :=
  if k ∈ reservedKeys then "fields." ++ k else k

/-- Modelled from the spec: `Build` performs no clock reading — in the source,
`baseTimestamp` is set at package initialization (the `init` function) and
`Build` records no time.  The construction instant is passed here explicitly,
and ignored exactly as in the source, only so that claims that speak about
"formatter-construction time" can be stated. -/
def TextFormatter.BuildAt (factory : TextFormatter) (_constructionTime : GoTime)
    (isTerminalOut : Bool) (goos : String) : textFormatter :=
  factory.Build isTerminalOut goos

/-! ## Association-list lemmas -/

@[simp] theorem lookupKey_nil {α : Type} (k : String) :
    lookupKey ([] : List (String × α)) k = none := rfl

@[simp] theorem lookupKey_cons {α : Type} (p : String × α)
    (d : List (String × α)) (k : String) :
    lookupKey (p :: d) k = if p.1 = k then some p.2 else lookupKey d k := by
  obtain ⟨k', v⟩ := p; rfl

@[simp] theorem keys_nil : Fields.keys [] = [] := rfl

@[simp] theorem keys_cons (p : String × FValue) (d : Fields) :
    Fields.keys (p :: d) = p.1 :: Fields.keys d := rfl

@[simp] theorem erase_nil (k : String) : Fields.erase [] k = [] := rfl

theorem erase_cons (p : String × FValue) (d : Fields) (k : String) :
    Fields.erase (p :: d) k =
      if p.1 = k then Fields.erase d k else p :: Fields.erase d k := by
  by_cases hp : p.1 = k <;> simp [Fields.erase, List.filter_cons, hp]

@[simp] theorem errConvert_nil : errConvert [] = [] := rfl

@[simp] theorem errConvert_cons (p : String × FValue) (d : Fields) :
    errConvert (p :: d) = (p.1, textualize p.2) :: errConvert d := rfl

theorem mem_keys_iff_isSome (d : Fields) (k : String) :
    k ∈ Fields.keys d ↔ (lookupKey d k).isSome := by
  induction d with
  | nil => simp
  | cons p d ih =>
      by_cases h : p.1 = k
      · simp [h]
      · simp [h, Ne.symm h, ih]

theorem lookupKey_mem {d : Fields} {k : String} {v : FValue}
    (h : lookupKey d k = some v) : (k, v) ∈ d := by
  induction d with
  | nil => simp at h
  | cons p d ih =>
      by_cases hk : p.1 = k
      · rw [lookupKey_cons, if_pos hk, Option.some_inj] at h
        subst h
        obtain ⟨k', v'⟩ := p
        rcases hk with rfl
        exact List.mem_cons_self _ _
      · rw [lookupKey_cons, if_neg hk] at h
        exact List.mem_cons_of_mem _ (ih h)

theorem nodupKeys_cons {p : String × FValue} {d : Fields} :
    Fields.NodupKeys (p :: d) ↔ p.1 ∉ Fields.keys d ∧ Fields.NodupKeys d := by
  simp [Fields.NodupKeys]

theorem mem_keys_of_mem {d : Fields} {p : String × FValue} (h : p ∈ d) :
    p.1 ∈ Fields.keys d :=
  List.mem_map_of_mem Prod.fst h

theorem lookupKey_of_mem_nodup {d : Fields} (hnd : Fields.NodupKeys d)
    {k : String} {v : FValue} (h : (k, v) ∈ d) : lookupKey d k = some v := by
  induction d with
  | nil => simp at h
  | cons p d ih =>
      obtain ⟨hp, hd⟩ := nodupKeys_cons.mp hnd
      rcases List.mem_cons.mp h with he | hm
      · rw [← he]; simp
      · have hk : k ∈ Fields.keys d := mem_keys_of_mem hm
        have hne : p.1 ≠ k := fun he2 => hp (he2 ▸ hk)
        simp [hne, ih hd hm]

theorem any_keys_iff (d : Fields) (k : String) :
    (d.any fun p => p.1 = k) = true ↔ k ∈ Fields.keys d := by
  induction d with
  | nil => simp
  | cons p d ih =>
      by_cases h : p.1 = k
      · simp [h]
      · simp [h, Ne.symm h, ih]

theorem keys_map_replace (d : Fields) (k : String) (v : FValue) :
    Fields.keys (d.map fun p => if p.1 = k then (k, v) else p) = Fields.keys d := by
  induction d with
  | nil => rfl
  | cons p d ih =>
      by_cases hp : p.1 = k <;> simp [hp, ih]

theorem keys_insert_of_mem {d : Fields} {k : String} (v : FValue)
    (h : k ∈ Fields.keys d) :
    Fields.keys (Fields.insert d k v) = Fields.keys d := by
  rw [Fields.insert, if_pos ((any_keys_iff d k).mpr h)]
  exact keys_map_replace d k v

theorem keys_insert_of_not_mem {d : Fields} {k : String} (v : FValue)
    (h : k ∉ Fields.keys d) :
    Fields.keys (Fields.insert d k v) = Fields.keys d ++ [k] := by
  rw [Fields.insert, if_neg (fun hb => h ((any_keys_iff d k).mp hb))]
  simp [Fields.keys]

theorem mem_keys_insert {d : Fields} {k k' : String} {v : FValue} :
    k' ∈ Fields.keys (Fields.insert d k v) ↔ k' = k ∨ k' ∈ Fields.keys d := by
  by_cases h : k ∈ Fields.keys d
  · rw [keys_insert_of_mem v h]
    constructor
    · exact Or.inr
    · rintro (rfl | hm)
      · exact h
      · exact hm
  · rw [keys_insert_of_not_mem v h]
    simp [or_comm]

theorem lookupKey_map_replace_self {d : Fields} {k : String} (v : FValue)
    (h : k ∈ Fields.keys d) :
    lookupKey (d.map fun p => if p.1 = k then (k, v) else p) k = some v := by
  induction d with
  | nil => simp at h
  | cons p d ih =>
      by_cases hp : p.1 = k
      · simp [hp]
      · have h' : k ∈ Fields.keys d := by
          rcases List.mem_cons.mp (by simpa using h) with he | hm
          · exact absurd he.symm hp
          · exact hm
        simp [hp, ih h']

theorem lookupKey_append_single_self {d : Fields} {k : String} (v : FValue)
    (h : k ∉ Fields.keys d) :
    lookupKey (d ++ [(k, v)]) k = some v := by
  induction d with
  | nil => simp
  | cons p d ih =>
      have hp : p.1 ≠ k := fun he => h (by simp [he])
      have h' : k ∉ Fields.keys d := fun hm => h (by simp [hm])
      simp [hp, ih h']

theorem lookupKey_insert_self (d : Fields) (k : String) (v : FValue) :
    lookupKey (Fields.insert d k v) k = some v := by
  rw [Fields.insert]
  by_cases h : k ∈ Fields.keys d
  · rw [if_pos ((any_keys_iff d k).mpr h)]
    exact lookupKey_map_replace_self v h
  · rw [if_neg (fun hb => h ((any_keys_iff d k).mp hb))]
    exact lookupKey_append_single_self v h

theorem lookupKey_map_replace_ne (d : Fields) (k : String) (v : FValue)
    {k' : String} (h : k' ≠ k) :
    lookupKey (d.map fun p => if p.1 = k then (k, v) else p) k' = lookupKey d k' := by
  induction d with
  | nil => rfl
  | cons p d ih =>
      rw [List.map_cons]
      by_cases hp : p.1 = k
      · have hhead : (if p.1 = k then (k, v) else p) = (k, v) := if_pos hp
        have h1 : ¬(k = k') := fun he => h he.symm
        have h2 : ¬(p.1 = k') := fun he => h1 (hp ▸ he)
        rw [hhead, lookupKey_cons, lookupKey_cons, if_neg h1, if_neg h2]
        exact ih
      · have hhead : (if p.1 = k then (k, v) else p) = p := if_neg hp
        rw [hhead, lookupKey_cons, lookupKey_cons]
        by_cases hq : p.1 = k' <;> simp [hq, ih]

theorem lookupKey_append_single_ne (d : Fields) (k : String) (v : FValue)
    {k' : String} (h : k' ≠ k) :
    lookupKey (d ++ [(k, v)]) k' = lookupKey d k' := by
  induction d with
  | nil => simp [Ne.symm h]
  | cons p d ih =>
      by_cases hq : p.1 = k' <;> simp [hq, ih]

theorem lookupKey_insert_ne (d : Fields) {k k' : String} (v : FValue)
    (h : k' ≠ k) : lookupKey (Fields.insert d k v) k' = lookupKey d k' := by
  rw [Fields.insert]
  by_cases hm : k ∈ Fields.keys d
  · rw [if_pos ((any_keys_iff d k).mpr hm)]
    exact lookupKey_map_replace_ne d k v h
  · rw [if_neg (fun hb => hm ((any_keys_iff d k).mp hb))]
    exact lookupKey_append_single_ne d k v h

theorem lookupKey_erase_self (d : Fields) (k : String) :
    lookupKey (Fields.erase d k) k = none := by
  induction d with
  | nil => rfl
  | cons p d ih =>
      rw [erase_cons]
      by_cases hp : p.1 = k <;> simp [hp, ih]

theorem lookupKey_erase_ne (d : Fields) {k k' : String} (h : k' ≠ k) :
    lookupKey (Fields.erase d k) k' = lookupKey d k' := by
  induction d with
  | nil => rfl
  | cons p d ih =>
      rw [erase_cons]
      by_cases hp : p.1 = k
      · have h2 : ¬(p.1 = k') := fun he => h (hp ▸ he).symm
        simp [hp, h2, Ne.symm h, ih]
      · by_cases hq : p.1 = k' <;> simp [hp, hq, h, Ne.symm h, ih]

theorem keys_erase (d : Fields) (k : String) :
    Fields.keys (Fields.erase d k) = (Fields.keys d).filter (fun x => x ≠ k) := by
  induction d with
  | nil => rfl
  | cons p d ih =>
      rw [erase_cons]
      by_cases hp : p.1 = k <;> simp [hp, List.filter_cons, ih]

theorem nodupKeys_erase {d : Fields} (hnd : Fields.NodupKeys d) (k : String) :
    Fields.NodupKeys (Fields.erase d k) := by
  rw [Fields.NodupKeys, keys_erase]
  exact hnd.filter _

theorem nodupKeys_insert {d : Fields} (hnd : Fields.NodupKeys d) (k : String)
    (v : FValue) : Fields.NodupKeys (Fields.insert d k v) := by
  by_cases h : k ∈ Fields.keys d
  · rw [Fields.NodupKeys, keys_insert_of_mem v h]; exact hnd
  · rw [Fields.NodupKeys, keys_insert_of_not_mem v h]
    simpa [List.nodup_append] using ⟨hnd, h⟩

@[simp] theorem keys_errConvert (d : Fields) :
    Fields.keys (errConvert d) = Fields.keys d := by
  induction d with
  | nil => rfl
  | cons p d ih => simp [ih]

theorem lookupKey_errConvert (d : Fields) (k : String) :
    lookupKey (errConvert d) k = (lookupKey d k).map textualize := by
  induction d with
  | nil => rfl
  | cons p d ih =>
      by_cases hp : p.1 = k <;> simp [hp, ih]

theorem nodupKeys_errConvert {d : Fields} (hnd : Fields.NodupKeys d) :
    Fields.NodupKeys (errConvert d) := by
  rw [Fields.NodupKeys, keys_errConvert]; exact hnd

/-! ## Field-Clash Resolution lemmas -/

-- Literal forms of the prefixed reserved keys.
theorem fields_time_eq : ("fields." ++ "time" : String) = "fields.time" := by decide
theorem fields_msg_eq : ("fields." ++ "msg" : String) = "fields.msg" := by decide
theorem fields_level_eq : ("fields." ++ "level" : String) = "fields.level" := by decide

theorem moveKey_lookup_self {d : Fields} {r : String} (hr : "fields." ++ r ≠ r) :
    lookupKey (moveKey d r) r = none := by
  rw [moveKey]
  cases h : lookupKey d r with
  | none => exact h
  | some v => rw [lookupKey_insert_ne _ _ (fun he => hr he.symm), lookupKey_erase_self]

theorem moveKey_lookup_prefixed {d : Fields} {r : String} {v : FValue}
    (h : lookupKey d r = some v) :
    lookupKey (moveKey d r) ("fields." ++ r) = some v := by
  rw [moveKey, h, lookupKey_insert_self]

theorem moveKey_of_none {d : Fields} {r : String} (h : lookupKey d r = none) :
    moveKey d r = d := by
  rw [moveKey, h]

theorem moveKey_lookup_other {d : Fields} {r k : String} (h1 : k ≠ r)
    (h2 : k ≠ "fields." ++ r) :
    lookupKey (moveKey d r) k = lookupKey d k := by
  rw [moveKey]
  cases h : lookupKey d r with
  | none => rfl
  | some v => rw [lookupKey_insert_ne _ _ h2, lookupKey_erase_ne _ h1]

theorem nodupKeys_moveKey {d : Fields} (hnd : Fields.NodupKeys d) (r : String) :
    Fields.NodupKeys (moveKey d r) := by
  rw [moveKey]
  cases lookupKey d r with
  | none => exact hnd
  | some v => exact nodupKeys_insert (nodupKeys_erase hnd r) _ _

theorem nodupKeys_prefixFieldClashes {d : Fields} (hnd : Fields.NodupKeys d) :
    Fields.NodupKeys (prefixFieldClashes d) :=
  nodupKeys_moveKey (nodupKeys_moveKey (nodupKeys_moveKey hnd _) _) _

theorem pfc_lookup_time (d : Fields) :
    lookupKey (prefixFieldClashes d) "time" = none := by
  have h1 : lookupKey (moveKey d "time") "time" = none :=
    moveKey_lookup_self (by decide)
  have h2 : lookupKey (moveKey (moveKey d "time") "msg") "time" = none := by
    rw [moveKey_lookup_other (by decide) (by decide)]; exact h1
  rw [prefixFieldClashes, moveKey_lookup_other (by decide) (by decide)]
  exact h2

theorem pfc_lookup_msg (d : Fields) :
    lookupKey (prefixFieldClashes d) "msg" = none := by
  have h2 : lookupKey (moveKey (moveKey d "time") "msg") "msg" = none :=
    moveKey_lookup_self (by decide)
  rw [prefixFieldClashes, moveKey_lookup_other (by decide) (by decide)]
  exact h2

theorem pfc_lookup_level (d : Fields) :
    lookupKey (prefixFieldClashes d) "level" = none := by
  rw [prefixFieldClashes]
  exact moveKey_lookup_self (by decide)

theorem pfc_lookup_ftime {d : Fields} {v : FValue}
    (h : lookupKey d "time" = some v) :
    lookupKey (prefixFieldClashes d) "fields.time" = some v := by
  have h1 : lookupKey (moveKey d "time") "fields.time" = some v := by
    rw [← fields_time_eq]; exact moveKey_lookup_prefixed h
  have h2 : lookupKey (moveKey (moveKey d "time") "msg") "fields.time" = some v := by
    rw [moveKey_lookup_other (by decide) (by decide)]; exact h1
  rw [prefixFieldClashes, moveKey_lookup_other (by decide) (by decide)]
  exact h2

theorem pfc_lookup_fmsg {d : Fields} {v : FValue}
    (h : lookupKey d "msg" = some v) :
    lookupKey (prefixFieldClashes d) "fields.msg" = some v := by
  have h1 : lookupKey (moveKey d "time") "msg" = some v := by
    rw [moveKey_lookup_other (by decide) (by decide)]; exact h
  have h2 : lookupKey (moveKey (moveKey d "time") "msg") "fields.msg" = some v := by
    rw [← fields_msg_eq]; exact moveKey_lookup_prefixed h1
  rw [prefixFieldClashes, moveKey_lookup_other (by decide) (by decide)]
  exact h2

theorem pfc_lookup_flevel {d : Fields} {v : FValue}
    (h : lookupKey d "level" = some v) :
    lookupKey (prefixFieldClashes d) "fields.level" = some v := by
  have h1 : lookupKey (moveKey d "time") "level" = some v := by
    rw [moveKey_lookup_other (by decide) (by decide)]; exact h
  have h2 : lookupKey (moveKey (moveKey d "time") "msg") "level" = some v := by
    rw [moveKey_lookup_other (by decide) (by decide)]; exact h1
  rw [prefixFieldClashes, ← fields_level_eq]
  exact moveKey_lookup_prefixed h2

theorem pfc_lookup_ftime_none {d : Fields} (h : lookupKey d "time" = none) :
    lookupKey (prefixFieldClashes d) "fields.time" = lookupKey d "fields.time" := by
  have h1 : moveKey d "time" = d := moveKey_of_none h
  rw [prefixFieldClashes, h1, moveKey_lookup_other (by decide) (by decide),
    moveKey_lookup_other (by decide) (by decide)]

theorem pfc_lookup_fmsg_none {d : Fields} (h : lookupKey d "msg" = none) :
    lookupKey (prefixFieldClashes d) "fields.msg" = lookupKey d "fields.msg" := by
  have h1 : lookupKey (moveKey d "time") "msg" = none := by
    rw [moveKey_lookup_other (by decide) (by decide)]; exact h
  have h2 : moveKey (moveKey d "time") "msg" = moveKey d "time" := moveKey_of_none h1
  rw [prefixFieldClashes, h2, moveKey_lookup_other (by decide) (by decide),
    moveKey_lookup_other (by decide) (by decide)]

theorem pfc_lookup_flevel_none {d : Fields} (h : lookupKey d "level" = none) :
    lookupKey (prefixFieldClashes d) "fields.level" = lookupKey d "fields.level" := by
  have h1 : lookupKey (moveKey d "time") "level" = none := by
    rw [moveKey_lookup_other (by decide) (by decide)]; exact h
  have h2 : lookupKey (moveKey (moveKey d "time") "msg") "level" = none := by
    rw [moveKey_lookup_other (by decide) (by decide)]; exact h1
  have h3 : moveKey (moveKey (moveKey d "time") "msg") "level" =
      moveKey (moveKey d "time") "msg" := moveKey_of_none h2
  rw [prefixFieldClashes, h3, moveKey_lookup_other (by decide) (by decide),
    moveKey_lookup_other (by decide) (by decide)]

theorem pfc_lookup_other {d : Fields} {k : String}
    (h1 : k ≠ "time") (h2 : k ≠ "msg") (h3 : k ≠ "level")
    (h4 : k ≠ "fields.time") (h5 : k ≠ "fields.msg") (h6 : k ≠ "fields.level") :
    lookupKey (prefixFieldClashes d) k = lookupKey d k := by
  rw [prefixFieldClashes,
    moveKey_lookup_other h3 (fields_level_eq ▸ h6),
    moveKey_lookup_other h2 (fields_msg_eq ▸ h5),
    moveKey_lookup_other h1 (fields_time_eq ▸ h4)]

/-! ## String lemmas -/

theorem str_data_append (s t : String) : (s ++ t).data = s.data ++ t.data := by
  cases s; cases t; rfl

theorem str_ext {s t : String} (h : s.data = t.data) : s = t := by
  cases s; cases t; exact congrArg String.mk h

/-- Bytewise check that the second list is a prefix of the first. -/
def charsStartWith : List Char → List Char → Bool
  | _, [] => true
  | [], _ :: _ => false
  | a :: as, b :: bs => a == b && charsStartWith as bs

/-- Check that `needle` occurs as a contiguous segment of the second list. -/
def containsSeg (needle : List Char) : List Char → Bool
  | [] => needle.isEmpty
  | a :: as => charsStartWith (a :: as) needle || containsSeg needle as

/-- Substring test: `needle` occurs contiguously inside `hay`. -/
def strContains (hay needle : String) : Bool := containsSeg needle.data hay.data

@[simp] theorem charsStartWith_nil (l : List Char) : charsStartWith l [] = true := by
  cases l <;> rfl

theorem charsStartWith_append (n t : List Char) :
    charsStartWith (n ++ t) n = true := by
  induction n with
  | nil => simp
  | cons a n ih => simp [charsStartWith, ih]

theorem containsSeg_cons (needle : List Char) (a : Char) (as : List Char) :
    containsSeg needle (a :: as) =
      (charsStartWith (a :: as) needle || containsSeg needle as) := rfl

theorem containsSeg_append (s n t : List Char) :
    containsSeg n (s ++ (n ++ t)) = true := by
  induction s with
  | nil =>
      rw [List.nil_append]
      cases n with
      | nil => cases t <;> simp [containsSeg]
      | cons b bs =>
          have h := charsStartWith_append (b :: bs) t
          rw [List.cons_append, containsSeg_cons, ← List.cons_append, h, Bool.true_or]
  | cons a s ih => simp [containsSeg_cons, ih]

theorem strContains_of_decomp {hay needle : String}
    (h : ∃ u v : List Char, hay.data = u ++ needle.data ++ v) :
    strContains hay needle = true := by
  obtain ⟨u, v, he⟩ := h
  rw [strContains, he, List.append_assoc]
  exact containsSeg_append u needle.data v

theorem joinStr_data_decomp {x : String} {L : List String} (h : x ∈ L) :
    ∃ u v : List Char, (joinStr L).data = u ++ x.data ++ v := by
  induction L with
  | nil => simp at h
  | cons y L ih =>
      rcases List.mem_cons.mp h with rfl | hm
      · exact ⟨[], (joinStr L).data, by simp [joinStr, str_data_append]⟩
      · obtain ⟨u, v, he⟩ := ih hm
        exact ⟨y.data ++ u, v, by simp [joinStr, str_data_append, he]⟩

/-- A string free of the terminal escape character. -/
abbrev escFree (s : String) : Prop := '\x1b' ∉ s.data

theorem escFree_append {s t : String} (hs : escFree s) (ht : escFree t) :
    escFree (s ++ t) := by
  rw [escFree, str_data_append]
  simp [hs, ht]

theorem escFree_joinStr {L : List String} (h : ∀ s ∈ L, escFree s) :
    escFree (joinStr L) := by
  induction L with
  | nil => simp [joinStr, escFree]
  | cons y L ih =>
      exact escFree_append (h y (List.mem_cons_self _ _))
        (ih fun s hs => h s (List.mem_cons_of_mem _ hs))

theorem esc_mem_colorEsc (n : Nat) : '\x1b' ∈ (colorEsc n).data := by
  rw [colorEsc, str_data_append, str_data_append]
  apply List.mem_append_left
  apply List.mem_append_left
  decide

/-! ## Quoting lemmas -/

theorem allowedChar_iff (c : Char) :
    allowedChar c = true ↔
      ('a' ≤ c ∧ c ≤ 'z') ∨ ('A' ≤ c ∧ c ≤ 'Z') ∨ ('0' ≤ c ∧ c ≤ '9') ∨
      c = '-' ∨ c = '.' := by
  simp [allowedChar, and_assoc, or_assoc]

theorem needsQuoting_iff (f : textFormatter) (s : String) :
    f.needsQuoting s = true ↔
      (f.settings.QuoteEmptyFields = true ∧ s = "") ∨
      ∃ c ∈ s.data, allowedChar c = false := by
  rw [textFormatter.needsQuoting]
  by_cases hq : (f.settings.QuoteEmptyFields && s.length == 0) = true
  · rw [if_pos hq]
    simp only [Bool.and_eq_true, beq_iff_eq] at hq
    have hs : s = "" := by
      cases s with
      | mk data =>
          cases data with
          | nil => rfl
          | cons a l => simp [String.length] at hq
    simp [hq.1, hs]
  · rw [if_neg hq]
    constructor
    · intro h
      right
      obtain ⟨c, hc, hcc⟩ := List.any_eq_true.mp h
      exact ⟨c, hc, by simpa using hcc⟩
    · rintro (⟨h1, h2⟩ | ⟨c, hc, hcc⟩)
      · exact absurd (by simp [h1, h2]) hq
      · exact List.any_eq_true.mpr ⟨c, hc, by simp [hcc]⟩

theorem level_str_allowed (l : Level) :
    ∀ c ∈ (Level.str l).data, allowedChar c = true := by
  cases l <;> decide

theorem level_str_ne_empty (l : Level) : Level.str l ≠ "" := by
  cases l <;> decide

theorem needsQuoting_level (f : textFormatter) (l : Level) :
    f.needsQuoting l.str = false := by
  cases hb : f.needsQuoting l.str with
  | false => rfl
  | true =>
      exfalso
      rcases (needsQuoting_iff f _).mp hb with ⟨_, h2⟩ | ⟨c, hc, hcc⟩
      · exact level_str_ne_empty l h2
      · rw [level_str_allowed l c hc] at hcc
        cases hcc

theorem appendValue_level (f : textFormatter) (l : Level) :
    f.appendValue (.str l.str) = l.str := by
  simp [textFormatter.appendValue, needsQuoting_level]

theorem level_str_escFree (l : Level) : escFree (Level.str l) := by
  cases l <;> decide

/-! ## Format structure lemmas -/

theorem mem_formatKeys (f : textFormatter) (e : Entry) (k : String) :
    k ∈ f.formatKeys e ↔ k ∈ Fields.keys (formatData e) := by
  rw [textFormatter.formatKeys]
  by_cases hs : (!f.settings.DisableSorting) = true
  · rw [if_pos hs]
    exact (List.perm_insertionSort _ _).mem_iff
  · rw [if_neg hs]

theorem msg_not_mem_formatKeys (f : textFormatter) (e : Entry) :
    "msg" ∉ f.formatKeys e := by
  rw [mem_formatKeys, mem_keys_iff_isSome, formatData, pfc_lookup_msg]
  simp

theorem strContains_format_of_pair (f : textFormatter) (base : GoTime)
    (e : Entry) (hc : f.isColored = false) {p : String × FValue}
    (hp : p ∈ f.nonColoredPairs e) :
    strContains (f.Format base e) (f.appendKeyValue p.1 p.2) = true := by
  apply strContains_of_decomp
  rw [textFormatter.Format]
  rw [if_neg (by rw [hc]; exact Bool.false_ne_true)]
  obtain ⟨u, v, he⟩ :=
    joinStr_data_decomp (List.mem_map_of_mem (fun p => f.appendKeyValue p.1 p.2) hp)
  refine ⟨(e.Buffer.getD "").data ++ u, v ++ "\n".data, ?_⟩
  rw [str_data_append, str_data_append, he]
  simp [List.append_assoc]

/-! ## Claim C10 -/

/-- C10: when the event carries a caller-supplied buffer, `Format` appends to
it without resetting it — the returned bytes are the buffer's prior contents
followed by the newly formatted line, and with no buffer the output starts
from empty. -/
theorem C10_buffer_appended (f : textFormatter) (base : GoTime) (e : Entry)
    (buf : String) :
    f.Format base { e with Buffer := some buf } =
      buf ++ f.Format base { e with Buffer := none } := by
  apply str_ext
  by_cases hcol : f.isColored = true <;>
    simp [textFormatter.Format, hcol, str_data_append, formatData,
      textFormatter.formatKeys, textFormatter.nonColoredPairs,
      textFormatter.printColored, textFormatter.coloredFields]

instance exceptDecEq {ε α : Type} [DecidableEq ε] [DecidableEq α] :
    DecidableEq (Except ε α) := fun x y =>
  match x, y with
  | .ok a, .ok b =>
      if h : a = b then isTrue (by rw [h])
      else isFalse (fun he => h (by cases he; rfl))
  | .ok _, .error _ => isFalse (fun he => Except.noConfusion he)
  | .error _, .ok _ => isFalse (fun he => Except.noConfusion he)
  | .error e, .error e' =>
      if h : e = e' then isTrue (by rw [h])
      else isFalse (fun he => h (by cases he; rfl))

/-! ## Claim C5 -/

/-- C5: if serialization of the assembled mapping fails, the JSON `Format`
call returns the error wrapping the underlying cause and no bytes at all (the
`Except` result carries either bytes or an error, never both); if
serialization succeeds, no error is returned. -/
theorem C5_serialization_error (f : jsonFormatter) (entry : Entry) :
    (∀ e, jsonMarshal (f.assemble entry) = .error e →
      f.Format entry = .error ("Failed to marshal fields to JSON, " ++ e)) ∧
    (∀ s, jsonMarshal (f.assemble entry) = .ok s →
      f.Format entry = .ok (s ++ "\n")) := by
  constructor
  · intro e he
    rw [jsonFormatter.Format, he]
  · intro s hs
    rw [jsonFormatter.Format, hs]

def C5jf : jsonFormatter :=
  JSONFormatter.Build { TimestampFormat := "", DisableTimestamp := true, FieldMap := [] }

def C5time : GoTime := { nanos := 0, format := fun _ => "T" }

def C5badEntry : Entry :=
  { Time := C5time, Level := .info, Message := "m",
    Data := [("ch", FValue.other "chan int" false)], Buffer := none }

def C5okEntry : Entry :=
  { Time := C5time, Level := .info, Message := "m", Data := [], Buffer := none }

/-- C5 witness: a concrete failing call and a concrete succeeding call. -/
theorem C5_serialization_error_witness :
    C5jf.Format C5badEntry =
      .error ("Failed to marshal fields to JSON, " ++ "json: unsupported type: chan int") ∧
    C5jf.Format C5okEntry =
      .ok ("\x7b\"level\":\"info\",\"msg\":\"m\"\x7d" ++ "\n") :=
  ⟨(C5_serialization_error C5jf C5badEntry).1 "json: unsupported type: chan int" (by decide),
   (C5_serialization_error C5jf C5okEntry).2 "\x7b\"level\":\"info\",\"msg\":\"m\"\x7d" (by decide)⟩

/-! ## Claim C9 -/

/-- C9: if the field map sends the time key to the empty string, the built
JSON formatter's resolved time key is empty and the assembled mapping never
receives a time field, even with `DisableTimestamp = false`. -/
theorem C9_empty_time_key (factory : JSONFormatter)
    (hmap : lookupKey factory.FieldMap "time" = some "")
    (hdt : factory.DisableTimestamp = false) :
    factory.Build.keyTime = "" ∧
    ∀ e, factory.Build.assemble e =
      Fields.insert
        (Fields.insert (prefixFieldClashes (errConvert e.Data))
          factory.Build.keyMsg (.str e.Message))
        factory.Build.keyLevel (.str e.Level.str) := by
  have hkt : factory.Build.keyTime = "" := by
    rw [JSONFormatter.Build, hdt]
    by_cases htf : (factory.TimestampFormat == "") = true <;>
      simp [htf, FieldMap.resolve, FieldKeyTime, hmap]
  refine ⟨hkt, fun e => ?_⟩
  rw [jsonFormatter.assemble, hkt]
  simp

def C9factory : JSONFormatter :=
  { TimestampFormat := "", DisableTimestamp := false, FieldMap := [("time", "")] }

def C9entry : Entry :=
  { Time := { nanos := 0, format := fun _ => "T" }, Level := .warning,
    Message := "w", Data := [("a", FValue.str "b")], Buffer := none }

/-- C9 witness: the concrete built formatter's time key is empty and the
assembled mapping omits the time field. -/
theorem C9_empty_time_key_witness :
    C9factory.Build.keyTime = "" ∧
    C9factory.Build.assemble C9entry =
      Fields.insert
        (Fields.insert (prefixFieldClashes (errConvert C9entry.Data))
          C9factory.Build.keyMsg (.str C9entry.Message))
        C9factory.Build.keyLevel (.str C9entry.Level.str) :=
  ⟨(C9_empty_time_key C9factory rfl rfl).1,
   (C9_empty_time_key C9factory rfl rfl).2 C9entry⟩

/-! ## Claim C6 -/

/-- C6: a rendered text value (string or error description) is written
unquoted exactly when no character falls outside \x7ba-z, A-Z, 0-9, -, .\x7d
and the empty/quote-empty-fields case does not apply; otherwise it is wrapped
in the configured quote character on both sides. -/
theorem C6_quoting (f : textFormatter) (s : String) :
    (∀ c, allowedChar c = true ↔
      ('a' ≤ c ∧ c ≤ 'z') ∨ ('A' ≤ c ∧ c ≤ 'Z') ∨ ('0' ≤ c ∧ c ≤ '9') ∨
      c = '-' ∨ c = '.') ∧
    (f.needsQuoting s = true ↔
      (∃ c ∈ s.data, allowedChar c = false) ∨
      (f.settings.QuoteEmptyFields = true ∧ s = "")) ∧
    (f.needsQuoting s = false →
      f.appendValue (.str s) = s ∧ f.appendValue (.err s) = s) ∧
    (f.needsQuoting s = true →
      f.appendValue (.str s) =
        f.settings.QuoteCharacter ++ s ++ f.settings.QuoteCharacter ∧
      f.appendValue (.err s) =
        f.settings.QuoteCharacter ++ s ++ f.settings.QuoteCharacter) := by
  refine ⟨allowedChar_iff, ?_, ?_, ?_⟩
  · rw [needsQuoting_iff, or_comm]
  · intro h
    constructor <;> simp [textFormatter.appendValue, h]
  · intro h
    constructor <;> simp [textFormatter.appendValue, h]

def C6f : textFormatter :=
  TextFormatter.Build
    { ForceColors := false, DisableColors := false, DisableTimestamp := true,
      FullTimestamp := false, TimestampFormat := "", DisableSorting := false,
      QuoteEmptyFields := false, QuoteCharacter := "" } false "linux"

/-- C6 witness: a value of allowed characters is written unquoted and a value
with a space is wrapped in the configured quote character. -/
theorem C6_quoting_witness :
    C6f.appendValue (.str "abc-1.2") = "abc-1.2" ∧
    C6f.appendValue (.str "a b") =
      C6f.settings.QuoteCharacter ++ "a b" ++ C6f.settings.QuoteCharacter :=
  ⟨((C6_quoting C6f "abc-1.2").2.2.1 (by decide)).1,
   ((C6_quoting C6f "a b").2.2.2 (by decide)).1⟩

/-! ## Claim C4 -/

def C4time : GoTime :=
  { nanos := 1704207845000000000,
    format := fun layout =>
      if layout = DefaultTimestampFormat then "2024-01-02T15:04:05Z" else "" }

def C4f : textFormatter :=
  TextFormatter.Build
    { ForceColors := false, DisableColors := false, DisableTimestamp := false,
      FullTimestamp := false, TimestampFormat := "", DisableSorting := false,
      QuoteEmptyFields := false, QuoteCharacter := "" } false "linux"

def C4entry : Entry :=
  { Time := C4time, Level := .info, Message := "started",
    Data := [("pid", FValue.other "123" true)], Buffer := none }

/-- C4 counterexample: the claimed exact bytes are wrong — the formatter
writes a space after every key=value pair, so a space precedes the newline. -/
theorem C4_counterexample :
    C4f.Format C4time C4entry ≠
      "time=\"2024-01-02T15:04:05Z\" level=info msg=started pid=123\n" := by
  decide

/-- C4 amended: the concrete scenario produces the claimed pairs in the
claimed order, but with a trailing space after the last pair, before the
newline. -/
theorem C4_trailing_space :
    C4f.Format C4time C4entry =
      "time=\"2024-01-02T15:04:05Z\" level=info msg=started pid=123 \n" := by
  decide

/-! ## Claim C1 -/

def C1f : textFormatter :=
  TextFormatter.Build
    { ForceColors := false, DisableColors := false, DisableTimestamp := true,
      FullTimestamp := false, TimestampFormat := "", DisableSorting := false,
      QuoteEmptyFields := false, QuoteCharacter := "" } false "linux"

def C1time : GoTime := { nanos := 0, format := fun _ => "" }

def C1entry : Entry :=
  { Time := C1time, Level := .info, Message := "", Data := [], Buffer := none }

/-- C1 counterexample: with an empty message the non-colored output contains
no `msg` key at all — the msg pair is skipped, not written with an empty
value. -/
theorem C1_counterexample :
    C1f.Format C1time C1entry = "level=info \n" ∧
    strContains (C1f.Format C1time C1entry) "msg" = false := by
  constructor <;> decide

theorem level_eq_str : ("level" ++ "=" : String) = "level=" := by decide

theorem msg_eq_str : ("msg" ++ "=" : String) = "msg=" := by decide

/-- C1 amended: in the non-colored output the level field always appears, and
the msg field appears exactly when the event's message is non-empty. -/
theorem C1_level_always_msg_iff_nonempty (f : textFormatter) (base : GoTime)
    (e : Entry) (hc : f.isColored = false) :
    strContains (f.Format base e) ("level=" ++ e.Level.str ++ " ") = true ∧
    (e.Message ≠ "" →
      strContains (f.Format base e)
        ("msg=" ++ f.appendValue (.str e.Message) ++ " ") = true) ∧
    ("msg" ∈ (f.nonColoredPairs e).map Prod.fst ↔ e.Message ≠ "") := by
  refine ⟨?_, ?_, ?_⟩
  · have hlvl : ("level", FValue.str e.Level.str) ∈ f.nonColoredPairs e := by
      rw [textFormatter.nonColoredPairs]
      exact List.mem_append_left _ (List.mem_append_right _ (List.mem_cons_self _ _))
    have h := strContains_format_of_pair f base e hc hlvl
    rw [textFormatter.appendKeyValue] at h
    simpa [appendValue_level, level_eq_str] using h
  · intro hm
    have hmsg : ("msg", FValue.str e.Message) ∈ f.nonColoredPairs e := by
      rw [textFormatter.nonColoredPairs]
      refine List.mem_append_left _ (List.mem_append_right _
        (List.mem_cons_of_mem _ ?_))
      simp [hm]
    have h := strContains_format_of_pair f base e hc hmsg
    rw [textFormatter.appendKeyValue] at h
    simpa [msg_eq_str] using h
  · by_cases hm : e.Message = ""
    · by_cases ht : f.settings.DisableTimestamp <;>
        simp [textFormatter.nonColoredPairs, hm, ht, msg_not_mem_formatKeys f e]
    · simp [textFormatter.nonColoredPairs, hm]

def C1wEntry : Entry :=
  { Time := C1time, Level := .warning, Message := "hello",
    Data := [("k", FValue.str "v")], Buffer := none }

/-- C1 witness: the amended statement at a concrete non-colored formatter and
event. -/
theorem C1_witness :
    strContains (C1f.Format C1time C1wEntry) ("level=" ++ Level.str .warning ++ " ") = true ∧
    strContains (C1f.Format C1time C1wEntry)
      ("msg=" ++ C1f.appendValue (.str "hello") ++ " ") = true ∧
    ("msg" ∈ (C1f.nonColoredPairs C1wEntry).map Prod.fst ↔ ("hello" : String) ≠ "") := by
  have h := C1_level_always_msg_iff_nonempty C1f C1time C1wEntry rfl
  exact ⟨h.1, h.2.1 (by decide), h.2.2⟩

/-! ## Claim C7 -/

/-- The text carried inside a value, as rendered before quoting. -/
def valueText : FValue → String
  | .str s => s
  | .err m => m
  | .other printed _ => printed

/-- The event and formatter strings rendered on the non-colored path carry no
escape character. -/
abbrev escFreeEntry (f : textFormatter) (e : Entry) : Prop :=
  escFree (e.Time.format f.settings.TimestampFormat) ∧ escFree e.Message ∧
  escFree f.settings.QuoteCharacter ∧ escFree (e.Buffer.getD "") ∧
  ∀ p ∈ formatData e, escFree p.1 ∧ escFree (valueText p.2)

theorem escFree_appendValue (f : textFormatter) (v : FValue)
    (hq : escFree f.settings.QuoteCharacter) (hv : escFree (valueText v)) :
    escFree (f.appendValue v) := by
  cases v with
  | str s =>
      rw [textFormatter.appendValue]
      split
      · exact hv
      · exact escFree_append (escFree_append hq hv) hq
  | err m =>
      rw [textFormatter.appendValue]
      split
      · exact hv
      · exact escFree_append (escFree_append hq hv) hq
  | other printed m => exact hv

theorem escFree_appendKeyValue (f : textFormatter) (k : String) (v : FValue)
    (hk : escFree k) (hq : escFree f.settings.QuoteCharacter)
    (hv : escFree (valueText v)) : escFree (f.appendKeyValue k v) := by
  rw [textFormatter.appendKeyValue]
  exact escFree_append
    (escFree_append (escFree_append hk (by decide)) (escFree_appendValue f v hq hv))
    (by decide)

theorem escFree_pair_of_mem {f : textFormatter} {e : Entry}
    (h : escFreeEntry f e) {p : String × FValue}
    (hp : p ∈ f.nonColoredPairs e) : escFree p.1 ∧ escFree (valueText p.2) := by
  obtain ⟨htime, hmsg, hq, hbuf, hdata⟩ := h
  rw [textFormatter.nonColoredPairs] at hp
  rcases List.mem_append.mp hp with hp | hp
  · rcases List.mem_append.mp hp with hp | hp
    · by_cases ht : (!f.settings.DisableTimestamp) = true <;> simp [ht] at hp
      rw [hp]
      exact ⟨(by decide : escFree "time"), htime⟩
    · rcases List.mem_cons.mp hp with rfl | hp
      · exact ⟨(by decide : escFree "level"), level_str_escFree _⟩
      · by_cases hm : (e.Message != "") = true <;> simp [hm] at hp
        rw [hp]
        exact ⟨(by decide : escFree "msg"), hmsg⟩
  · obtain ⟨k, hk, rfl⟩ := List.mem_map.mp hp
    cases hv : lookupKey (formatData e) k with
    | none =>
        exact absurd ((mem_formatKeys f e k).mp hk)
          (by rw [mem_keys_iff_isSome, hv]; simp)
    | some v =>
        have hmem := lookupKey_mem hv
        have hkv := hdata (k, v) hmem
        exact ⟨hkv.1, by simpa [hv] using hkv.2⟩

theorem escFree_format (f : textFormatter) (base : GoTime) (e : Entry)
    (hc : f.isColored = false) (h : escFreeEntry f e) :
    escFree (f.Format base e) := by
  rw [textFormatter.Format, if_neg (by rw [hc]; exact Bool.false_ne_true)]
  refine escFree_append (escFree_append h.2.2.2.1 ?_) (by decide)
  apply escFree_joinStr
  intro s hs
  obtain ⟨p, hp, rfl⟩ := List.mem_map.mp hs
  obtain ⟨hk, hv⟩ := escFree_pair_of_mem h hp
  exact escFree_appendKeyValue f p.1 p.2 hk h.2.2.1 hv

theorem esc_mem_append_left {s : String} (t : String)
    (h : '\x1b' ∈ s.data) : '\x1b' ∈ (s ++ t).data := by
  rw [str_data_append]
  exact List.mem_append_left _ h

theorem esc_mem_format_colored (f : textFormatter) (base : GoTime) (e : Entry)
    (hc : f.isColored = true) : '\x1b' ∈ (f.Format base e).data := by
  rw [textFormatter.Format, if_pos hc]
  rw [str_data_append, str_data_append]
  apply List.mem_append_left
  apply List.mem_append_right
  rw [textFormatter.printColored]
  apply esc_mem_append_left
  split
  · repeat apply esc_mem_append_left
    decide
  · split
    · repeat apply esc_mem_append_left
      decide
    · repeat apply esc_mem_append_left
      decide

/-- C7: color-enablement equals
(force-colors OR (terminal AND platform not windows)) AND NOT disable-colors,
is fixed in the built formatter, and decides for every `Format` call whether
escape codes appear: always on the colored path, never on the non-colored path
(for events whose own strings carry no escape character). -/
theorem C7_color_decision (factory : TextFormatter) (isTerminalOut : Bool)
    (goos : String) :
    (factory.Build isTerminalOut goos).isColored =
      ((factory.ForceColors || (isTerminalOut && !(goos == "windows"))) &&
        !factory.DisableColors) ∧
    (∀ base e, (factory.Build isTerminalOut goos).isColored = true →
      '\x1b' ∈ ((factory.Build isTerminalOut goos).Format base e).data) ∧
    (∀ base e, (factory.Build isTerminalOut goos).isColored = false →
      escFreeEntry (factory.Build isTerminalOut goos) e →
      '\x1b' ∉ ((factory.Build isTerminalOut goos).Format base e).data) := by
  refine ⟨?_, fun base e hc => esc_mem_format_colored _ base e hc,
    fun base e hc hfree => escFree_format _ base e hc hfree⟩
  rw [TextFormatter.Build]
  by_cases h1 : (!factory.DisableTimestamp && factory.TimestampFormat == "") = true <;>
    by_cases h2 : (factory.QuoteCharacter == "") = true <;>
      simp [h1, h2]

def C7factoryA : TextFormatter :=
  { ForceColors := true, DisableColors := false, DisableTimestamp := true,
    FullTimestamp := false, TimestampFormat := "", DisableSorting := false,
    QuoteEmptyFields := false, QuoteCharacter := "" }

def C7factoryB : TextFormatter := { C7factoryA with ForceColors := false }

def C7time : GoTime := { nanos := 0, format := fun _ => "t" }

def C7entry : Entry :=
  { Time := C7time, Level := .info, Message := "hi",
    Data := [("k", FValue.str "v")], Buffer := none }

/-- C7 witness: a concretely built colored formatter always emits the escape
character and a concretely built non-colored one never does, on a concrete
clean event. -/
theorem C7_color_decision_witness :
    '\x1b' ∈ ((C7factoryA.Build false "linux").Format C7time C7entry).data ∧
    '\x1b' ∉ ((C7factoryB.Build false "linux").Format C7time C7entry).data :=
  ⟨(C7_color_decision C7factoryA false "linux").2.1 C7time C7entry (by decide),
   (C7_color_decision C7factoryB false "linux").2.2 C7time C7entry (by decide)
     ⟨by decide, by decide, by decide, by decide, by decide⟩⟩

/-! ## Claim C8 -/

theorem keys_perm {d1 d2 : Fields} (h : d1.Perm d2) :
    (Fields.keys d1).Perm (Fields.keys d2) := h.map Prod.fst

theorem nodupKeys_of_perm {d1 d2 : Fields} (h : d1.Perm d2)
    (hnd : Fields.NodupKeys d1) : Fields.NodupKeys d2 :=
  (keys_perm h).nodup hnd

theorem lookup_eq_of_perm {d1 d2 : Fields} (h : d1.Perm d2)
    (hnd : Fields.NodupKeys d1) (k : String) :
    lookupKey d1 k = lookupKey d2 k := by
  have hnd2 := nodupKeys_of_perm h hnd
  cases h1 : lookupKey d1 k with
  | some v =>
      exact (lookupKey_of_mem_nodup hnd2 (h.mem_iff.mp (lookupKey_mem h1))).symm
  | none =>
      cases h2 : lookupKey d2 k with
      | none => rfl
      | some v =>
          have hv := lookupKey_of_mem_nodup hnd (h.mem_iff.mpr (lookupKey_mem h2))
          rw [h1] at hv
          exact hv

theorem insert_perm {d1 d2 : Fields} (h : d1.Perm d2) (k : String) (v : FValue) :
    (Fields.insert d1 k v).Perm (Fields.insert d2 k v) := by
  rw [Fields.insert, Fields.insert]
  by_cases hm : k ∈ Fields.keys d1
  · have hm2 : k ∈ Fields.keys d2 := (keys_perm h).mem_iff.mp hm
    rw [if_pos ((any_keys_iff _ _).mpr hm), if_pos ((any_keys_iff _ _).mpr hm2)]
    exact h.map _
  · have hm2 : k ∉ Fields.keys d2 := fun hx => hm ((keys_perm h).mem_iff.mpr hx)
    rw [if_neg (fun hb => hm ((any_keys_iff _ _).mp hb)),
      if_neg (fun hb => hm2 ((any_keys_iff _ _).mp hb))]
    exact h.append_right _

theorem moveKey_perm {d1 d2 : Fields} (h : d1.Perm d2)
    (hnd : Fields.NodupKeys d1) (r : String) :
    (moveKey d1 r).Perm (moveKey d2 r) := by
  rw [moveKey, moveKey, lookup_eq_of_perm h hnd r]
  cases lookupKey d2 r with
  | none => exact h
  | some v => exact insert_perm (h.filter _) _ _

theorem pfc_perm {d1 d2 : Fields} (h : d1.Perm d2)
    (hnd : Fields.NodupKeys d1) :
    (prefixFieldClashes d1).Perm (prefixFieldClashes d2) := by
  rw [prefixFieldClashes, prefixFieldClashes]
  have h1 := moveKey_perm h hnd "time"
  have hnd1 := nodupKeys_moveKey hnd "time"
  have h2 := moveKey_perm h1 hnd1 "msg"
  have hnd2 := nodupKeys_moveKey hnd1 "msg"
  exact moveKey_perm h2 hnd2 "level"

theorem formatKeys_eq_of_perm (f : textFormatter) (e : Entry) (d2 : Fields)
    (hsort : f.settings.DisableSorting = false)
    (hperm : e.Data.Perm d2) (hnd : Fields.NodupKeys e.Data) :
    f.formatKeys { e with Data := d2 } = f.formatKeys e := by
  have hp : (prefixFieldClashes d2).Perm (prefixFieldClashes e.Data) :=
    pfc_perm hperm.symm (nodupKeys_of_perm hperm hnd)
  have hk : (Fields.keys (prefixFieldClashes d2)).Perm
      (Fields.keys (prefixFieldClashes e.Data)) := keys_perm hp
  rw [textFormatter.formatKeys, textFormatter.formatKeys, hsort]
  simp only [Bool.not_false, if_true, ite_true]
  exact List.eq_of_perm_of_sorted
    ((List.perm_insertionSort _ _).trans (hk.trans (List.perm_insertionSort _ _).symm))
    (List.sorted_insertionSort _ _) (List.sorted_insertionSort _ _)

theorem coloredFields_congr (f : textFormatter) (lc : Nat) (keys : List String)
    {d1 d2 : Fields} (h : ∀ k, lookupKey d1 k = lookupKey d2 k) :
    f.coloredFields lc keys d1 = f.coloredFields lc keys d2 := by
  rw [textFormatter.coloredFields, textFormatter.coloredFields]
  congr 1
  apply List.map_congr_left
  intro k _
  rw [h k]

theorem format_congr (f : textFormatter) (base : GoTime) (e1 e2 : Entry)
    (hT : e1.Time = e2.Time) (hL : e1.Level = e2.Level)
    (hM : e1.Message = e2.Message) (hB : e1.Buffer = e2.Buffer)
    (hK : f.formatKeys e1 = f.formatKeys e2)
    (hD : ∀ k, lookupKey (formatData e1) k = lookupKey (formatData e2) k) :
    f.Format base e1 = f.Format base e2 := by
  rw [textFormatter.Format, textFormatter.Format, hB]
  congr 1
  congr 1
  by_cases hcol : f.isColored = true
  · rw [if_pos hcol, if_pos hcol, textFormatter.printColored,
      textFormatter.printColored, hT, hL, hM, hK]
    congr 1
    exact coloredFields_congr f _ _ hD
  · rw [if_neg hcol, if_neg hcol]
    congr 1
    rw [textFormatter.nonColoredPairs, textFormatter.nonColoredPairs,
      hT, hL, hM, hK]
    congr 1
    congr 1
    apply List.map_congr_left
    intro k _
    rw [hD k]

/-- C8: with sorting enabled, the emitted attribute-key sequence is sorted in
byte-wise ascending lexicographic order, and two events that carry the same
attribute set (the same key/value pairs, in any map-iteration order) produce
the same formatted output, hence identical key ordering. -/
theorem C8_sorted_keys (f : textFormatter) (base : GoTime) (e : Entry)
    (d2 : Fields) (hsort : f.settings.DisableSorting = false)
    (hperm : e.Data.Perm d2) (hnd : Fields.NodupKeys e.Data) :
    f.Format base { e with Data := d2 } = f.Format base e ∧
    List.Sorted (· ≤ ·) (f.formatKeys e) := by
  constructor
  · have hkeys := formatKeys_eq_of_perm f e d2 hsort hperm hnd
    have hlook : ∀ k, lookupKey (formatData { e with Data := d2 }) k =
        lookupKey (formatData e) k := fun k =>
      lookup_eq_of_perm (pfc_perm hperm hnd) (nodupKeys_prefixFieldClashes hnd) k |>.symm
    exact format_congr f base { e with Data := d2 } e rfl rfl rfl rfl hkeys hlook
  · rw [textFormatter.formatKeys, hsort]
    simp only [Bool.not_false, if_true, ite_true]
    exact List.sorted_insertionSort _ _

def C8f : textFormatter :=
  TextFormatter.Build
    { ForceColors := false, DisableColors := false, DisableTimestamp := true,
      FullTimestamp := false, TimestampFormat := "", DisableSorting := false,
      QuoteEmptyFields := false, QuoteCharacter := "" } false "linux"

def C8time : GoTime := { nanos := 0, format := fun _ => "t" }

def C8p1 : String × FValue := ("b", FValue.str "1")
def C8p2 : String × FValue := ("a", FValue.str "2")

def C8entry : Entry :=
  { Time := C8time, Level := .info, Message := "m",
    Data := [C8p1, C8p2], Buffer := none }

/-- C8 witness: a concrete event formatted with its two attributes in either
map order yields the same bytes, and the key sequence is sorted. -/
theorem C8_sorted_keys_witness :
    C8f.Format C8time { C8entry with Data := [C8p2, C8p1] } =
      C8f.Format C8time C8entry ∧
    List.Sorted (· ≤ ·) (C8f.formatKeys C8entry) :=
  C8_sorted_keys C8f C8time C8entry [C8p2, C8p1] rfl
    (List.Perm.swap C8p2 C8p1 []) (by decide)

/-! ## Claim C3 -/

/-- C3 amended: in relative mode the colored line's bracketed segment holds
the whole seconds elapsed between the package-initialization instant
(`baseTimestamp`, set by `init`, not at formatter construction) and the
event's timestamp, zero-padded to 4 digits. -/
theorem C3_relative_seconds (f : textFormatter) (base : GoTime) (e : Entry)
    (hc : f.isColored = true) (ht : f.settings.DisableTimestamp = false)
    (hf : f.settings.FullTimestamp = false) :
    f.Format base e =
      (e.Buffer.getD "") ++
      (colorEsc (levelColorOf e.Level) ++ strTake4 (strToUpper e.Level.str) ++
        colorEsc 0 ++ "[" ++
        pad4 ((e.Time.nanos - base.nanos).tdiv 1000000000) ++ "] " ++
        padRight 44 e.Message ++ " " ++
        f.coloredFields (levelColorOf e.Level) (f.formatKeys e) (formatData e)) ++
      "\n" := by
  rw [textFormatter.Format, if_pos hc, textFormatter.printColored, ht, hf]
  simp only [Bool.not_false, if_true, ite_true, if_false, ite_false,
    Bool.false_eq_true, String.append_assoc]

def C3base : GoTime := { nanos := 0, format := fun _ => "" }

def C3ctime : GoTime := { nanos := 5000000000, format := fun _ => "" }

def C3factory : TextFormatter :=
  { ForceColors := true, DisableColors := false, DisableTimestamp := false,
    FullTimestamp := false, TimestampFormat := "x", DisableSorting := false,
    QuoteEmptyFields := false, QuoteCharacter := "" }

def C3f : textFormatter := C3factory.BuildAt C3ctime true "linux"

def C3entry : Entry :=
  { Time := { nanos := 10000000000, format := fun _ => "" }, Level := .info,
    Message := "x", Data := [], Buffer := none }

/-- C3 counterexample: a formatter built 5 seconds after package
initialization, formatting an event 10 seconds after package initialization,
brackets `0010` (seconds since `baseTimestamp`), not `0005` (seconds since
formatter construction) as the claim states. -/
theorem C3_counterexample :
    strContains (C3f.Format C3base C3entry)
      ("[" ++ pad4 ((C3entry.Time.nanos - C3ctime.nanos).tdiv 1000000000) ++ "]") = false ∧
    strContains (C3f.Format C3base C3entry) "[0010]" = true ∧
    pad4 ((C3entry.Time.nanos - C3ctime.nanos).tdiv 1000000000) = "0005" := by
  refine ⟨by decide, by decide, by decide⟩

/-- C3 witness: the amended statement at the concrete formatter and event. -/
theorem C3_relative_seconds_witness :
    C3f.Format C3base C3entry =
      (C3entry.Buffer.getD "") ++
      (colorEsc (levelColorOf C3entry.Level) ++
        strTake4 (strToUpper C3entry.Level.str) ++ colorEsc 0 ++ "[" ++
        pad4 ((C3entry.Time.nanos - C3base.nanos).tdiv 1000000000) ++ "] " ++
        padRight 44 C3entry.Message ++ " " ++
        C3f.coloredFields (levelColorOf C3entry.Level) (C3f.formatKeys C3entry)
          (formatData C3entry)) ++
      "\n" :=
  C3_relative_seconds C3f C3base C3entry (by decide) (by decide) (by decide)

/-! ## Claim C2 -/

theorem finalKey_ne_reserved (k0 r : String) (hr : r ∈ reservedKeys) :
    finalKey k0 ≠ r := by
  rw [finalKey]
  split
  · rename_i hmem
    rcases show k0 = "time" ∨ k0 = "msg" ∨ k0 = "level" by
        simpa [reservedKeys] using hmem with rfl | rfl | rfl <;>
      rcases show r = "time" ∨ r = "msg" ∨ r = "level" by
          simpa [reservedKeys] using hr with rfl | rfl | rfl <;> decide
  · rename_i hmem
    intro he
    subst he
    exact hmem hr

theorem finalKey_eq_ftime (k0 : String) :
    finalKey k0 = "fields.time" ↔ k0 = "time" ∨ k0 = "fields.time" := by
  rw [finalKey]
  split
  · rename_i hmem
    rcases show k0 = "time" ∨ k0 = "msg" ∨ k0 = "level" by
        simpa [reservedKeys] using hmem with rfl | rfl | rfl <;> decide
  · rename_i hmem
    constructor
    · exact fun he => Or.inr he
    · rintro (rfl | rfl)
      · exact absurd (by decide : ("time" : String) ∈ reservedKeys) hmem
      · rfl

theorem finalKey_eq_fmsg (k0 : String) :
    finalKey k0 = "fields.msg" ↔ k0 = "msg" ∨ k0 = "fields.msg" := by
  rw [finalKey]
  split
  · rename_i hmem
    rcases show k0 = "time" ∨ k0 = "msg" ∨ k0 = "level" by
        simpa [reservedKeys] using hmem with rfl | rfl | rfl <;> decide
  · rename_i hmem
    constructor
    · exact fun he => Or.inr he
    · rintro (rfl | rfl)
      · exact absurd (by decide : ("msg" : String) ∈ reservedKeys) hmem
      · rfl

theorem finalKey_eq_flevel (k0 : String) :
    finalKey k0 = "fields.level" ↔ k0 = "level" ∨ k0 = "fields.level" := by
  rw [finalKey]
  split
  · rename_i hmem
    rcases show k0 = "time" ∨ k0 = "msg" ∨ k0 = "level" by
        simpa [reservedKeys] using hmem with rfl | rfl | rfl <;> decide
  · rename_i hmem
    constructor
    · exact fun he => Or.inr he
    · rintro (rfl | rfl)
      · exact absurd (by decide : ("level" : String) ∈ reservedKeys) hmem
      · rfl

theorem finalKey_eq_other {k : String} (h1 : k ≠ "time") (h2 : k ≠ "msg")
    (h3 : k ≠ "level") (h4 : k ≠ "fields.time") (h5 : k ≠ "fields.msg")
    (h6 : k ≠ "fields.level") (k0 : String) : finalKey k0 = k ↔ k0 = k := by
  rw [finalKey]
  split
  · rename_i hmem
    constructor
    · intro he
      exfalso
      rcases show k0 = "time" ∨ k0 = "msg" ∨ k0 = "level" by
          simpa [reservedKeys] using hmem with rfl | rfl | rfl
      · exact h4 (by rw [← he]; decide)
      · exact h5 (by rw [← he]; decide)
      · exact h6 (by rw [← he]; decide)
    · rintro rfl
      exfalso
      rcases show k0 = "time" ∨ k0 = "msg" ∨ k0 = "level" by
          simpa [reservedKeys] using hmem with rfl | rfl | rfl
      · exact h1 rfl
      · exact h2 rfl
      · exact h3 rfl
  · exact Iff.rfl

theorem mem_keys_pfc (d : Fields) (k : String) :
    k ∈ Fields.keys (prefixFieldClashes d) ↔
      ∃ k0 ∈ Fields.keys d, finalKey k0 = k := by
  by_cases h1 : k = "time"
  · subst h1
    rw [mem_keys_iff_isSome, pfc_lookup_time]
    constructor
    · intro h; simp at h
    · rintro ⟨k0, hk0, he⟩
      exact absurd he (finalKey_ne_reserved k0 "time" (by decide))
  by_cases h2 : k = "msg"
  · subst h2
    rw [mem_keys_iff_isSome, pfc_lookup_msg]
    constructor
    · intro h; simp at h
    · rintro ⟨k0, hk0, he⟩
      exact absurd he (finalKey_ne_reserved k0 "msg" (by decide))
  by_cases h3 : k = "level"
  · subst h3
    rw [mem_keys_iff_isSome, pfc_lookup_level]
    constructor
    · intro h; simp at h
    · rintro ⟨k0, hk0, he⟩
      exact absurd he (finalKey_ne_reserved k0 "level" (by decide))
  by_cases h4 : k = "fields.time"
  · subst h4
    rw [mem_keys_iff_isSome]
    by_cases hts : (lookupKey d "time").isSome
    · obtain ⟨v, hv⟩ := Option.isSome_iff_exists.mp hts
      rw [pfc_lookup_ftime hv]
      simp only [Option.isSome_some, true_iff]
      exact ⟨"time", (mem_keys_iff_isSome d "time").mpr (by rw [hv]; rfl),
        by decide⟩
    · have hn : lookupKey d "time" = none :=
        Option.not_isSome_iff_eq_none.mp hts
      rw [pfc_lookup_ftime_none hn, ← mem_keys_iff_isSome]
      constructor
      · intro hm
        exact ⟨"fields.time", hm, by decide⟩
      · rintro ⟨k0, hk0, he⟩
        rcases (finalKey_eq_ftime k0).mp he with rfl | rfl
        · exact absurd ((mem_keys_iff_isSome d "time").mp hk0) hts
        · exact hk0
  by_cases h5 : k = "fields.msg"
  · subst h5
    rw [mem_keys_iff_isSome]
    by_cases hts : (lookupKey d "msg").isSome
    · obtain ⟨v, hv⟩ := Option.isSome_iff_exists.mp hts
      rw [pfc_lookup_fmsg hv]
      simp only [Option.isSome_some, true_iff]
      exact ⟨"msg", (mem_keys_iff_isSome d "msg").mpr (by rw [hv]; rfl),
        by decide⟩
    · have hn : lookupKey d "msg" = none :=
        Option.not_isSome_iff_eq_none.mp hts
      rw [pfc_lookup_fmsg_none hn, ← mem_keys_iff_isSome]
      constructor
      · intro hm
        exact ⟨"fields.msg", hm, by decide⟩
      · rintro ⟨k0, hk0, he⟩
        rcases (finalKey_eq_fmsg k0).mp he with rfl | rfl
        · exact absurd ((mem_keys_iff_isSome d "msg").mp hk0) hts
        · exact hk0
  by_cases h6 : k = "fields.level"
  · subst h6
    rw [mem_keys_iff_isSome]
    by_cases hts : (lookupKey d "level").isSome
    · obtain ⟨v, hv⟩ := Option.isSome_iff_exists.mp hts
      rw [pfc_lookup_flevel hv]
      simp only [Option.isSome_some, true_iff]
      exact ⟨"level", (mem_keys_iff_isSome d "level").mpr (by rw [hv]; rfl),
        by decide⟩
    · have hn : lookupKey d "level" = none :=
        Option.not_isSome_iff_eq_none.mp hts
      rw [pfc_lookup_flevel_none hn, ← mem_keys_iff_isSome]
      constructor
      · intro hm
        exact ⟨"fields.level", hm, by decide⟩
      · rintro ⟨k0, hk0, he⟩
        rcases (finalKey_eq_flevel k0).mp he with rfl | rfl
        · exact absurd ((mem_keys_iff_isSome d "level").mp hk0) hts
        · exact hk0
  · rw [mem_keys_iff_isSome, pfc_lookup_other h1 h2 h3 h4 h5 h6,
      ← mem_keys_iff_isSome]
    constructor
    · intro hm
      exact ⟨k, hm, (finalKey_eq_other h1 h2 h3 h4 h5 h6 k).mpr rfl⟩
    · rintro ⟨k0, hk0, he⟩
      rcases (finalKey_eq_other h1 h2 h3 h4 h5 h6 k0).mp he with rfl
      exact hk0

/-- C2 amended: for a successfully formatted event whose attribute keys
neither pair a reserved name with its `fields.`-prefixed form nor (after
renaming) collide with a resolved reserved output key, the assembled mapping
(what decoding the produced bytes yields) holds exactly the resolved level and
msg keys, the resolved time key exactly when the built formatter emits
timestamps, and every user attribute under its possibly clash-renamed key,
with error values replaced by their textual description. -/
theorem C2_roundtrip (f : jsonFormatter) (entry : Entry)
    (hnd : Fields.NodupKeys entry.Data)
    (H1t : ¬("time" ∈ Fields.keys entry.Data ∧
      "fields.time" ∈ Fields.keys entry.Data))
    (H1m : ¬("msg" ∈ Fields.keys entry.Data ∧
      "fields.msg" ∈ Fields.keys entry.Data))
    (H1l : ¬("level" ∈ Fields.keys entry.Data ∧
      "fields.level" ∈ Fields.keys entry.Data))
    (H2 : ∀ p ∈ entry.Data, finalKey p.1 ≠ f.keyLevel ∧
      finalKey p.1 ≠ f.keyMsg ∧ (f.keyTime ≠ "" → finalKey p.1 ≠ f.keyTime))
    (_hok : ∃ bytes, f.Format entry = Except.ok bytes) :
    (∀ k, k ∈ Fields.keys (f.assemble entry) ↔
      k = f.keyLevel ∨ k = f.keyMsg ∨ (f.keyTime ≠ "" ∧ k = f.keyTime) ∨
      ∃ p ∈ entry.Data, finalKey p.1 = k) ∧
    (∀ p ∈ entry.Data,
      lookupKey (f.assemble entry) (finalKey p.1) = some (textualize p.2)) ∧
    lookupKey (f.assemble entry) f.keyLevel = some (.str entry.Level.str) := by
  have hiff : ∀ k, k ∈ Fields.keys (prefixFieldClashes (errConvert entry.Data)) ↔
      ∃ p ∈ entry.Data, finalKey p.1 = k := by
    intro k
    rw [mem_keys_pfc, keys_errConvert]
    constructor
    · rintro ⟨k0, hk0, he⟩
      obtain ⟨p, hp, rfl⟩ := List.mem_map.mp hk0
      exact ⟨p, hp, he⟩
    · rintro ⟨p, hp, he⟩
      exact ⟨p.1, List.mem_map_of_mem _ hp, he⟩
  refine ⟨?_, ?_, ?_⟩
  · intro k
    rw [jsonFormatter.assemble, mem_keys_insert, mem_keys_insert]
    by_cases hkt : f.keyTime ≠ ""
    · rw [if_pos hkt, mem_keys_insert, hiff k]
      constructor
      · rintro (h | h | h | h)
        · exact Or.inl h
        · exact Or.inr (Or.inl h)
        · exact Or.inr (Or.inr (Or.inl ⟨hkt, h⟩))
        · exact Or.inr (Or.inr (Or.inr h))
      · rintro (h | h | ⟨_, h⟩ | h)
        · exact Or.inl h
        · exact Or.inr (Or.inl h)
        · exact Or.inr (Or.inr (Or.inl h))
        · exact Or.inr (Or.inr (Or.inr h))
    · rw [if_neg hkt, hiff k]
      constructor
      · rintro (h | h | h)
        · exact Or.inl h
        · exact Or.inr (Or.inl h)
        · exact Or.inr (Or.inr (Or.inr h))
      · rintro (h | h | ⟨hne, _⟩ | h)
        · exact Or.inl h
        · exact Or.inr (Or.inl h)
        · exact absurd hne hkt
        · exact Or.inr (Or.inr h)
  · intro p hp
    obtain ⟨hL, hM, hT⟩ := H2 p hp
    rw [jsonFormatter.assemble, lookupKey_insert_ne _ _ hL,
      lookupKey_insert_ne _ _ hM]
    have hstep :
        lookupKey
          (if f.keyTime ≠ "" then
            Fields.insert (prefixFieldClashes (errConvert entry.Data)) f.keyTime
              (.str (entry.Time.format f.timestampFormat))
          else prefixFieldClashes (errConvert entry.Data)) (finalKey p.1) =
        lookupKey (prefixFieldClashes (errConvert entry.Data)) (finalKey p.1) := by
      by_cases hkt : f.keyTime ≠ ""
      · rw [if_pos hkt, lookupKey_insert_ne _ _ (hT hkt)]
      · rw [if_neg hkt]
    rw [hstep]
    have hv0 : lookupKey (errConvert entry.Data) p.1 = some (textualize p.2) := by
      rw [lookupKey_errConvert, lookupKey_of_mem_nodup hnd hp]
      rfl
    by_cases hres : p.1 ∈ reservedKeys
    · rcases show p.1 = "time" ∨ p.1 = "msg" ∨ p.1 = "level" by
          simpa [reservedKeys] using hres with he | he | he
      · rw [he] at hv0 ⊢
        rw [show finalKey "time" = "fields.time" from by decide]
        exact pfc_lookup_ftime hv0
      · rw [he] at hv0 ⊢
        rw [show finalKey "msg" = "fields.msg" from by decide]
        exact pfc_lookup_fmsg hv0
      · rw [he] at hv0 ⊢
        rw [show finalKey "level" = "fields.level" from by decide]
        exact pfc_lookup_flevel hv0
    · have hfk : finalKey p.1 = p.1 := by rw [finalKey, if_neg hres]
      rw [hfk]
      have hr1 : p.1 ≠ "time" := fun he => hres (by rw [he]; decide)
      have hr2 : p.1 ≠ "msg" := fun he => hres (by rw [he]; decide)
      have hr3 : p.1 ≠ "level" := fun he => hres (by rw [he]; decide)
      by_cases hft : p.1 = "fields.time"
      · have hmem : "fields.time" ∈ Fields.keys entry.Data :=
          hft ▸ mem_keys_of_mem hp
        have hnt : "time" ∉ Fields.keys entry.Data := fun hx => H1t ⟨hx, hmem⟩
        have hn0 : lookupKey (errConvert entry.Data) "time" = none := by
          cases hcase : lookupKey (errConvert entry.Data) "time" with
          | none => rfl
          | some v =>
              refine absurd ?_ hnt
              have := (mem_keys_iff_isSome (errConvert entry.Data) "time").mpr
                (by rw [hcase]; rfl)
              rwa [keys_errConvert] at this
        rw [hft] at hv0 ⊢
        rw [pfc_lookup_ftime_none hn0]
        exact hv0
      by_cases hfm : p.1 = "fields.msg"
      · have hmem : "fields.msg" ∈ Fields.keys entry.Data :=
          hfm ▸ mem_keys_of_mem hp
        have hnt : "msg" ∉ Fields.keys entry.Data := fun hx => H1m ⟨hx, hmem⟩
        have hn0 : lookupKey (errConvert entry.Data) "msg" = none := by
          cases hcase : lookupKey (errConvert entry.Data) "msg" with
          | none => rfl
          | some v =>
              refine absurd ?_ hnt
              have := (mem_keys_iff_isSome (errConvert entry.Data) "msg").mpr
                (by rw [hcase]; rfl)
              rwa [keys_errConvert] at this
        rw [hfm] at hv0 ⊢
        rw [pfc_lookup_fmsg_none hn0]
        exact hv0
      by_cases hfl : p.1 = "fields.level"
      · have hmem : "fields.level" ∈ Fields.keys entry.Data :=
          hfl ▸ mem_keys_of_mem hp
        have hnt : "level" ∉ Fields.keys entry.Data := fun hx => H1l ⟨hx, hmem⟩
        have hn0 : lookupKey (errConvert entry.Data) "level" = none := by
          cases hcase : lookupKey (errConvert entry.Data) "level" with
          | none => rfl
          | some v =>
              refine absurd ?_ hnt
              have := (mem_keys_iff_isSome (errConvert entry.Data) "level").mpr
                (by rw [hcase]; rfl)
              rwa [keys_errConvert] at this
        rw [hfl] at hv0 ⊢
        rw [pfc_lookup_flevel_none hn0]
        exact hv0
      · rw [pfc_lookup_other hr1 hr2 hr3 hft hfm hfl]
        exact hv0
  · rw [jsonFormatter.assemble]
    exact lookupKey_insert_self _ _ _

def C2jf : jsonFormatter :=
  JSONFormatter.Build { TimestampFormat := "", DisableTimestamp := true, FieldMap := [] }

def C2entry : Entry :=
  { Time := { nanos := 0, format := fun _ => "T" }, Level := .info,
    Message := "m",
    Data := [("fields.time", FValue.str "a"), ("time", FValue.str "b")],
    Buffer := none }

/-- C2 counterexample: the event formats successfully, yet the resulting
mapping does not contain every user attribute — clash-renaming the `time`
attribute overwrote the user's own `fields.time` attribute. -/
theorem C2_counterexample :
    (∃ bytes, C2jf.Format C2entry = Except.ok bytes) ∧
    ¬(∀ p ∈ C2entry.Data,
        lookupKey (C2jf.assemble C2entry) (finalKey p.1) =
          some (textualize p.2)) :=
  ⟨⟨"\x7b\"fields.time\":\"b\",\"level\":\"info\",\"msg\":\"m\"\x7d\n", by decide⟩,
   by decide⟩

def C2wjf : jsonFormatter :=
  JSONFormatter.Build { TimestampFormat := "", DisableTimestamp := false, FieldMap := [] }

def C2wentry : Entry :=
  { Time := { nanos := 0, format := fun _ => "2024-01-02T15:04:05Z" },
    Level := .info, Message := "hello",
    Data := [("user", FValue.str "alice"), ("e", FValue.err "boom")],
    Buffer := none }

/-- C2 witness: the amended statement at a concrete formatter and event,
instantiated at the key `user` and the attribute `user ↦ alice`. -/
theorem C2_roundtrip_witness :
    ("user" ∈ Fields.keys (C2wjf.assemble C2wentry) ↔
      "user" = C2wjf.keyLevel ∨ "user" = C2wjf.keyMsg ∨
      (C2wjf.keyTime ≠ "" ∧ "user" = C2wjf.keyTime) ∨
      ∃ p ∈ C2wentry.Data, finalKey p.1 = "user") ∧
    lookupKey (C2wjf.assemble C2wentry) (finalKey "user") =
      some (textualize (FValue.str "alice")) ∧
    lookupKey (C2wjf.assemble C2wentry) C2wjf.keyLevel =
      some (.str C2wentry.Level.str) := by
  have h := C2_roundtrip C2wjf C2wentry (by decide) (by decide) (by decide)
    (by decide) (by decide)
    ⟨"\x7b\"e\":\"boom\",\"level\":\"info\",\"msg\":\"hello\",\"time\":\"2024-01-02T15:04:05Z\",\"user\":\"alice\"\x7d\n",
      by decide⟩
  exact ⟨h.1 "user", h.2.1 ("user", FValue.str "alice") (by decide), h.2.2⟩

end Logrus
